import Mathlib

/-!
Verification of the signal-broadcast server core of `dm_vn`.

The development shallowly embeds the server-side core:

* `server/websocket_server.py` — the connection registry (a Python `set` of
  websocket handles, mutated by `WebSocketServer.handler` on connect and
  disconnect) and the fan-out `WebSocketServer.broadcast_signal`;
* `server/main_engine.py` — `ServerEngine` with its `start` / `stop`
  lifecycle and the cross-thread bridge `broadcast_signal_sync`;
* the JSON wire encoding: `json.dumps` of the signal dict, one UTF-8 text
  frame per recipient.

Connections are identified by their Python `id(websocket)`, modelled as a
`Nat`; the registry `connected_clients` is a duplicate-free `List Nat`.
JSON values are modelled by the inductive `Json`; `dumps` follows Python's
`json.dumps` with its default separators and `ensure_ascii` escaping rules
on the embeddable fragment (numbers are arbitrary-precision integers;
IEEE-754 floats are outside the embedding), and `loads` is an executable
parser for that canonical output, standing in for `json.loads` restricted
to the strings `dumps` produces.
-/

/-- A JSON value, as produced by the Python layer from a signal dict.
Numbers are restricted to (arbitrary-precision) integers: Python `int`
serialises exactly this way, while `float` fields are outside the
embeddable fragment.  Object member order is the dict's insertion order,
which `json.dumps` preserves. -/
inductive Json where
  | jnull : Json
  | jbool : Bool → Json
  | jint : Int → Json
  | jstr : List Char → Json
  | jarr : List Json → Json
  | jobj : List (List Char × Json) → Json

/-- Escaping of a single character inside a JSON string literal, following
`json.encoder`: quote and backslash get a backslash escape, the five
control characters with short escapes get those; every other character of
the well-formed fragment (printable ASCII) is emitted verbatim. -/
def escChar (c : Char) : List Char :=
  if c = '"' then ['\\', '"']
  else if c = '\\' then ['\\', '\\']
  else if c = '\n' then ['\\', 'n']
  else if c = '\t' then ['\\', 't']
  else if c = '\r' then ['\\', 'r']
  else if c = Char.ofNat 8 then ['\\', 'b']
  else if c = Char.ofNat 12 then ['\\', 'f']
  else [c]

/-- Escape a whole string body (the characters between the quotes). -/
def escapeStr : List Char → List Char
  | [] => []
  | c :: cs => escChar c ++ escapeStr cs

/-- The decimal digit character for a digit value. -/
def digChar (d : Nat) : Char := Char.ofNat (48 + d)

/-- Decimal digits of a number, least significant first; the first
argument is recursion fuel, for which the number itself suffices. -/
def natDigsRevF : Nat → Nat → List Char
  | 0, _ => []
  | _ + 1, 0 => []
  | f + 1, n + 1 => digChar ((n + 1) % 10) :: natDigsRevF f ((n + 1) / 10)

/-- Decimal representation of a natural number, as `str` prints it. -/
def natToChars (n : Nat) : List Char :=
  if n = 0 then ['0'] else (natDigsRevF n n).reverse

/-- Decimal representation of an integer, as `str` prints it. -/
def intToChars (i : Int) : List Char :=
  if i < 0 then '-' :: natToChars i.natAbs else natToChars i.toNat

mutual
/-- Serialisation following `json.dumps` with the default separators `", "` and `": "`
(`websocket_server.py` line 67: `message = json.dumps(signal_data)`). -/
def dumps : Json → List Char
  | .jnull => ['n', 'u', 'l', 'l']
  | .jbool true => ['t', 'r', 'u', 'e']
  | .jbool false => ['f', 'a', 'l', 's', 'e']
  | .jint i => intToChars i
  | .jstr s => '"' :: escapeStr s ++ ['"']
  | .jarr [] => ['[', ']']
  | .jarr (x :: xs) => '[' :: dumps x ++ dumpsArrTail xs ++ [']']
  | .jobj [] => ['{', '}']
  | .jobj (kv :: kvs) => '{' :: dumpsMember kv ++ dumpsObjTail kvs ++ ['}']

/-- One `"key": value` member of an object literal. -/
def dumpsMember : List Char × Json → List Char
  | (k, v) => '"' :: escapeStr k ++ ['"', ':', ' '] ++ dumps v

/-- The `", elem"` continuation of a non-empty array literal. -/
def dumpsArrTail : List Json → List Char
  | [] => []
  | x :: xs => ',' :: ' ' :: dumps x ++ dumpsArrTail xs

/-- The `", member"` continuation of a non-empty object literal. -/
def dumpsObjTail : List (List Char × Json) → List Char
  | [] => []
  | kv :: kvs => ',' :: ' ' :: dumpsMember kv ++ dumpsObjTail kvs
end

/-- Characters on which the embedding of `json.dumps` agrees with Python:
printable ASCII plus the five control characters that have short escapes
(Python turns the remaining control and non-ASCII characters into
`\uXXXX` escapes, which the fragment omits). -/
def wfChar (c : Char) : Bool :=
  (32 ≤ c.toNat && c.toNat ≤ 126) || c.toNat = 8 || c.toNat = 9 ||
    c.toNat = 10 || c.toNat = 12 || c.toNat = 13

/-- A string body lies in the embeddable fragment. -/
def wfStr (s : List Char) : Bool := s.all wfChar

mutual
/-- The JSON value lies in the embeddable fragment (all strings are
`wfStr`). -/
def wfJson : Json → Bool
  | .jnull => true
  | .jbool _ => true
  | .jint _ => true
  | .jstr s => wfStr s
  | .jarr xs => wfArr xs
  | .jobj kvs => wfObj kvs

def wfArr : List Json → Bool
  | [] => true
  | x :: xs => wfJson x && wfArr xs

def wfObj : List (List Char × Json) → Bool
  | [] => true
  | kv :: kvs => (wfStr kv.1 && wfJson kv.2) && wfObj kvs
end

/-- Inverse of `escChar` on escape letters. -/
def unescChar (e : Char) : Option Char :=
  if e = '"' then some '"'
  else if e = '\\' then some '\\'
  else if e = 'n' then some '\n'
  else if e = 't' then some '\t'
  else if e = 'r' then some '\r'
  else if e = 'b' then some (Char.ofNat 8)
  else if e = 'f' then some (Char.ofNat 12)
  else none

/-- Parse a string literal body up to the closing quote, returning the
unescaped body and the remaining input. -/
def parseStr : List Char → Option (List Char × List Char)
  | [] => none
  | c :: r =>
    if c = '"' then some ([], r)
    else if c = '\\' then
      match r with
      | [] => none
      | e :: r' =>
        match unescChar e with
        | none => none
        | some d =>
          match parseStr r' with
          | none => none
          | some p => some (d :: p.1, p.2)
    else
      match parseStr r with
      | none => none
      | some p => some (c :: p.1, p.2)

/-- Is this character a decimal digit? -/
def isDig (c : Char) : Bool := 48 ≤ c.toNat && c.toNat ≤ 57

/-- Digit value of a digit character. -/
def digVal (c : Char) : Nat := c.toNat - 48

/-- Consume a maximal run of digits, folding them onto `acc`. -/
def parseDigs (acc : Nat) : List Char → Nat × List Char
  | [] => (acc, [])
  | c :: r => if isDig c then parseDigs (acc * 10 + digVal c) r else (acc, c :: r)

/-- Does the input start with a digit?  (Used to delimit number
literals.) -/
def digStart : List Char → Bool
  | [] => false
  | c :: _ => isDig c

mutual
/-- Fuel-indexed parser for the canonical output of `dumps`; stands in for
`json.loads` on that domain.  Returns the value and the unconsumed
suffix. -/
def parseVal : Nat → List Char → Option (Json × List Char)
  | 0, _ => none
  | _ + 1, [] => none
  | f + 1, c :: r =>
    if c = 'n' then
      match r with
      | 'u' :: 'l' :: 'l' :: r' => some (.jnull, r')
      | _ => none
    else if c = 't' then
      match r with
      | 'r' :: 'u' :: 'e' :: r' => some (.jbool true, r')
      | _ => none
    else if c = 'f' then
      match r with
      | 'a' :: 'l' :: 's' :: 'e' :: r' => some (.jbool false, r')
      | _ => none
    else if c = '"' then
      match parseStr r with
      | none => none
      | some p => some (.jstr p.1, p.2)
    else if c = '[' then
      match r with
      | ']' :: r' => some (.jarr [], r')
      | _ =>
        match parseVal f r with
        | none => none
        | some p =>
          match parseArrTail f p.2 with
          | none => none
          | some q => some (.jarr (p.1 :: q.1), q.2)
    else if c = '{' then
      match r with
      | '}' :: r' => some (.jobj [], r')
      | '"' :: r' =>
        match parseStr r' with
        | none => none
        | some pk =>
          match pk.2 with
          | ':' :: ' ' :: r2 =>
            match parseVal f r2 with
            | none => none
            | some pv =>
              match parseObjTail f pv.2 with
              | none => none
              | some q => some (.jobj ((pk.1, pv.1) :: q.1), q.2)
          | _ => none
      | _ => none
    else if c = '-' then
      match r with
      | d :: r' =>
        if isDig d then
          let p := parseDigs (digVal d) r'
          some (.jint (-(p.1 : Int)), p.2)
        else none
      | [] => none
    else if isDig c then
      let p := parseDigs (digVal c) r
      some (.jint ((p.1 : Nat) : Int), p.2)
    else none

/-- Parse the continuation of a non-empty array literal: either `]` or
`", elem"` repeated. -/
def parseArrTail : Nat → List Char → Option (List Json × List Char)
  | 0, _ => none
  | _ + 1, ']' :: r => some ([], r)
  | f + 1, ',' :: ' ' :: r =>
    match parseVal f r with
    | none => none
    | some p =>
      match parseArrTail f p.2 with
      | none => none
      | some q => some (p.1 :: q.1, q.2)
  | _ + 1, _ => none

/-- Parse the continuation of a non-empty object literal: either `}` or
`", \x22key\x22: value"` repeated. -/
def parseObjTail : Nat → List Char → Option (List (List Char × Json) × List Char)
  | 0, _ => none
  | _ + 1, '}' :: r => some ([], r)
  | f + 1, ',' :: ' ' :: '"' :: r =>
    match parseStr r with
    | none => none
    | some pk =>
      match pk.2 with
      | ':' :: ' ' :: r2 =>
        match parseVal f r2 with
        | none => none
        | some pv =>
          match parseObjTail f pv.2 with
          | none => none
          | some q => some ((pk.1, pv.1) :: q.1, q.2)
      | _ => none
  | _ + 1, _ => none
end

mutual
/-- Structural size used as a fuel bound for the parser: every
constructor contributes at least one character to `dumps`. -/
def jsize : Json → Nat
  | .jnull => 1
  | .jbool _ => 1
  | .jint _ => 1
  | .jstr _ => 1
  | .jarr xs => 1 + asize xs
  | .jobj kvs => 1 + osize kvs

def asize : List Json → Nat
  | [] => 0
  | x :: xs => 1 + jsize x + asize xs

def osize : List (List Char × Json) → Nat
  | [] => 0
  | kv :: kvs => 1 + jsize kv.2 + osize kvs
end

/-- Parsing as `json.loads`, restricted to the canonical strings `dumps` emits: parse
one value and require the whole input to be consumed. -/
def loads (s : List Char) : Option Json :=
  match parseVal (s.length + 1) s with
  | some (v, []) => some v
  | _ => none

/-!
## Connection registry

`WebSocketServer.connected_clients` is a Python `set` of websocket
handles.  A handle is identified by `id(websocket)`, a `Nat`; the set is a
duplicate-free list.  `handler` mutates it in exactly two places:
`self.connected_clients.add(websocket)` on connect (line 38) and
`self.connected_clients.remove(websocket)` in the `finally` block on
disconnect (line 53).
-/

/-- Model of `self.connected_clients.add(websocket)` (`websocket_server.py` line
38): Python `set.add` inserts the element when absent and does nothing
when present. -/
def registerConn (st : List Nat) (c : Nat) : List Nat :=
  if c ∈ st then st else st ++ [c]

/-- Model of `self.connected_clients.remove(websocket)` (`websocket_server.py`
line 53): Python `set.remove` deletes the element when present and raises
`KeyError` — leaving the set unchanged — when absent.  (`set.discard`
would be the silent variant; the source uses `remove`.) -/
def removeConn (st : List Nat) (c : Nat) : Except Unit (List Nat) :=
  if c ∈ st then .ok (st.erase c) else .error ()

/-!
## Broadcast

`WebSocketServer.broadcast_signal` (`websocket_server.py` lines 56-80):

* lines 62-64: `if not self.connected_clients: log warning; return` —
  empty registry is an early no-op return, not an error;
* line 67: `message = json.dumps(signal_data)`;
* lines 71-75: one `asyncio.create_task(client.send(message))` per
  member of `self.connected_clients` — every send is independently
  scheduled, so each attempted send runs to completion or failure
  regardless of the others;
* line 79: `await asyncio.gather(*tasks)` with the default
  `return_exceptions=False`: if some send raises, the first exception
  propagates out of `broadcast_signal`; the coroutine does not catch it,
  and no cleanup of the failing connection is performed here.

The outcome of a send on a given connection is supplied by the
environment as `send : Nat → Except SendError Unit`.
-/

/-- Why a `client.send` can fail: the transport was closed, or the write
errored. -/
inductive SendError where
  | connectionClosed : SendError
  | writeError : SendError
  deriving DecidableEq, Repr

/-- How a call to `broadcast_signal` terminates. -/
inductive Outcome where
  /-- Early return on an empty registry (lines 62-64). -/
  | noop : Outcome
  /-- Normal return; `n` clients were reported in the success log
  (line 80). -/
  | ok : Nat → Outcome
  /-- The `gather` re-raised a send exception (line 79): the call fails
  as a whole. -/
  | raised : SendError → Outcome
  deriving DecidableEq, Repr

/-- Result of one `broadcast_signal` call. -/
structure BroadcastResult where
  /-- How the call returned to its awaiter. -/
  outcome : Outcome
  /-- Connections a send task was created for, in iteration order. -/
  attempts : List Nat
  /-- Frames actually delivered: one `(connection, payload)` per send
  task that succeeded.  Tasks are independent, so a failure of one does
  not remove the deliveries of the others. -/
  frames : List (Nat × List Char)
  deriving DecidableEq, Repr

/-- Model of `WebSocketServer.broadcast_signal` as a function of the send
environment, the registry content at the call, and the signal. -/
def broadcast_signal (send : Nat → Except SendError Unit)
    (clients : List Nat) (sig : Json) : BroadcastResult :=
  if clients = [] then ⟨.noop, [], []⟩
  else
    let message := dumps sig
    let frames := clients.filterMap fun c =>
      match send c with
      | .ok _ => some (c, message)
      | .error _ => none
    let firstErr := clients.findSome? fun c =>
      match send c with
      | .error e => some e
      | .ok _ => none
    match firstErr with
    | some e => ⟨.raised e, clients, frames⟩
    | none => ⟨.ok clients.length, clients, frames⟩

/-!
## Interleaving model of a broadcast in flight

All registry mutation and all sends happen on the single asyncio loop
thread.  `broadcast_signal` runs synchronously — no `await` — from its
entry through the creation of the last send task (lines 62-75), so the
iteration over `connected_clients` completes atomically: the recipient
list is the registry content at the call.  Only then does `await
asyncio.gather` (line 79) yield the loop, letting `handler` coroutines
interleave `set.add` / `set.remove` registry operations with the send
tasks.  `runEvts` executes such an interleaving: `Evt.sendStep` runs the
next pending send task, `Evt.env op` runs a registry operation from a
handler.
-/

/-- A registry operation another coroutine may perform mid-broadcast:
a connect (`set.add`, handler line 38) or a disconnect cleanup
(`set.remove`, handler line 53). -/
inductive RegOp where
  | reg : Nat → RegOp
  | unreg : Nat → RegOp
  deriving DecidableEq, Repr

/-- Apply a handler registry operation; a `KeyError` from `set.remove`
leaves the registry unchanged. -/
def applyOp (st : List Nat) (op : RegOp) : List Nat :=
  match op with
  | .reg c => registerConn st c
  | .unreg c =>
    match removeConn st c with
    | .ok st' => st'
    | .error _ => st

/-- One scheduler step while a broadcast is in flight. -/
inductive Evt where
  /-- The loop runs the next pending send task of the broadcast. -/
  | sendStep : Evt
  /-- The loop runs a handler coroutine performing a registry
  operation. -/
  | env : RegOp → Evt
  deriving DecidableEq, Repr

/-- Loop-owned state observed during a broadcast: the live registry and
the frames delivered so far. -/
structure ExecState where
  registry : List Nat
  delivered : List (Nat × List Char)
  deriving DecidableEq, Repr

/-- Run an interleaving of the broadcast's pending send tasks with
environment registry operations. -/
def runEvts (send : Nat → Except SendError Unit) (msg : List Char) :
    List Nat → List Evt → ExecState → ExecState
  | _, [], st => st
  | pending, .sendStep :: evts, st =>
    match pending with
    | [] => runEvts send msg [] evts st
    | c :: rest =>
      match send c with
      | .ok _ =>
        runEvts send msg rest evts ⟨st.registry, st.delivered ++ [(c, msg)]⟩
      | .error _ => runEvts send msg rest evts st
  | pending, .env op :: evts, st =>
    runEvts send msg pending evts ⟨applyOp st.registry op, st.delivered⟩

/-- A whole broadcast under a given mid-flight schedule `evts`: the
recipient list is the registry at the call (the synchronous prefix,
lines 62-75, runs atomically), after which the schedule runs; appended
trailing `sendStep`s model `gather` waiting for every send task to
finish. -/
def runBroadcast (send : Nat → Except SendError Unit) (sig : Json)
    (st0 : List Nat) (evts : List Evt) : ExecState :=
  runEvts send (dumps sig) st0 (evts ++ List.replicate st0.length .sendStep)
    ⟨st0, []⟩

/-!
## Server engine and the thread bridge

`ServerEngine` (`main_engine.py`):

* `start` (lines 37-48): if already active, log and return; otherwise
  spawn a **daemon** worker thread (line 79: `threading.Thread(...,
  daemon=True)`) that creates a fresh event loop, publishes it in
  `self.async_loop`, starts the WebSocket server and calls
  `loop.run_forever()`; then set `active = True`.  The state below is the
  steady state once the worker has published the loop.
* `stop` (lines 83-95): if not active, log and return; otherwise **only**
  set `active = False` and log — the comments on lines 91-93 state that
  the loop is left to die with the daemon thread at process exit and that
  graceful shutdown is future work.  No task is cancelled, the loop keeps
  running, the worker is not joined, and `async_loop` is not cleared.
* `broadcast_signal_sync` (lines 106-124): if `self.async_loop is None`,
  log an error and return `None`; otherwise submit
  `broadcast_signal(signal_data)` to the loop with
  `run_coroutine_threadsafe` and block on `future.result(timeout=5.0)`.
  A timeout or any other exception from the future is caught and logged
  (lines 121-124); the method never raises to its caller and always
  returns `None`.  `future.cancel()` is never called, so a timed-out
  task keeps running on the loop.
-/

/-- Observable state of a `ServerEngine` together with its worker
thread and loop. -/
structure EngineState where
  /-- The `self.active` flag. -/
  active : Bool
  /-- Whether `self.async_loop` is set: the worker published its loop. -/
  asyncLoopSet : Bool
  /-- The event loop is running (`run_until_complete` /
  `run_forever`). -/
  loopRunning : Bool
  /-- The worker thread is alive. -/
  threadAlive : Bool
  /-- The worker thread was spawned with `daemon=True`. -/
  threadDaemon : Bool
  /-- Some call joined the worker thread. -/
  threadJoined : Bool
  /-- Outstanding loop tasks were cancelled by `stop`. -/
  tasksCancelled : Bool
  deriving DecidableEq, Repr

namespace ServerEngine

/-- State after `ServerEngine.__init__` (lines 22-35): nothing started
yet, `self.async_loop = None`. -/
def init : EngineState :=
  ⟨false, false, false, false, false, false, false⟩

/-- Model of `ServerEngine.start` (lines 37-48), in the steady state where the
spawned worker has published its loop and entered `run_forever`. -/
def start (s : EngineState) : EngineState :=
  if s.active then s
  else
    { s with
      active := true, asyncLoopSet := true, loopRunning := true,
      threadAlive := true, threadDaemon := true }

/-- Model of `ServerEngine.stop` (lines 83-95): when active, only the `active`
flag changes — the loop, the worker thread and `async_loop` are left
as they are. -/
def stop (s : EngineState) : EngineState :=
  if !s.active then s else { s with active := false }

end ServerEngine

/-- Fate of the coroutine submitted by `broadcast_signal_sync`: it
completes within the 5-second deadline, exceeds it, or raises. -/
inductive TaskFate where
  | completed : TaskFate
  | timedOut : TaskFate
  | failed : TaskFate
  deriving DecidableEq, Repr

/-- Error log lines `broadcast_signal_sync` can emit. -/
inductive LogMsg where
  /-- Line 113: the event loop is not ready, cannot broadcast. -/
  | loopNotReady : LogMsg
  /-- Line 122: broadcasting the signal timed out. -/
  | broadcastTimeout : LogMsg
  /-- Line 124: an error occurred while broadcasting. -/
  | broadcastError : LogMsg
  deriving DecidableEq, Repr

/-- What one `broadcast_signal_sync` call does, as seen by its caller
and by the loop. -/
structure SyncOutcome where
  /-- The exception the call raises to its caller, if any.  (The source
  method catches everything and returns `None`, so this is always
  `none`.) -/
  raisedToCaller : Option LogMsg
  /-- The error line logged, if any. -/
  loggedError : Option LogMsg
  /-- Whether the broadcast coroutine was submitted to the loop. -/
  submitted : Bool
  /-- Whether this call cancelled the submitted task. -/
  cancelledTask : Bool
  deriving DecidableEq, Repr

/-- Model of `ServerEngine.broadcast_signal_sync` (lines 106-124) as a function
of the engine state and of how the submitted coroutine fares. -/
def broadcast_signal_sync (s : EngineState) (fate : TaskFate) : SyncOutcome :=
  if !s.asyncLoopSet then ⟨none, some .loopNotReady, false, false⟩
  else
    match fate with
    | .completed => ⟨none, none, true, false⟩
    | .timedOut => ⟨none, some .broadcastTimeout, true, false⟩
    | .failed => ⟨none, some .broadcastError, true, false⟩

/-!
## Derived notions used in the statements
-/

/-- Number of `sendStep` events in a schedule. -/
def countSends : List Evt → Nat
  | [] => 0
  | .sendStep :: evts => countSends evts + 1
  | .env _ :: evts => countSends evts

/-- The registry operations of a schedule, in order. -/
def envOps : List Evt → List RegOp
  | [] => []
  | .sendStep :: evts => envOps evts
  | .env op :: evts => op :: envOps evts

/-- Apply a sequence of handler registry operations. -/
def applyOps (st : List Nat) (ops : List RegOp) : List Nat :=
  ops.foldl applyOp st

/-- The frames a list of pending send tasks produces: one frame per
successful send. -/
def sendFrames (send : Nat → Except SendError Unit) (msg : List Char)
    (pending : List Nat) : List (Nat × List Char) :=
  pending.filterMap fun c =>
    match send c with
    | .ok _ => some (c, msg)
    | .error _ => none

/-!
## Helper lemmas: decimal digits
-/

theorem digChar_isDig : ∀ d, d < 10 → isDig (digChar d) = true := by decide

theorem digVal_digChar : ∀ d, d < 10 → digVal (digChar d) = d := by decide

theorem natDigsRevF_digits : ∀ f n, ∀ c ∈ natDigsRevF f n, isDig c = true := by
  intro f
  induction f with
  | zero => intro n c hc; simp [natDigsRevF] at hc
  | succ f ih =>
    intro n c hc
    cases n with
    | zero => simp [natDigsRevF] at hc
    | succ n =>
      rcases List.mem_cons.mp hc with h1 | h2
      · subst h1; exact digChar_isDig _ (Nat.mod_lt _ (by norm_num))
      · exact ih ((n + 1) / 10) c h2

theorem natToChars_digits : ∀ n, ∀ c ∈ natToChars n, isDig c = true := by
  intro n c hc
  rw [natToChars] at hc
  split at hc
  · simp at hc; subst hc; decide
  · exact natDigsRevF_digits n n c (List.mem_reverse.mp hc)

theorem natDigsRevF_ne_nil : ∀ f n, n ≠ 0 → n ≤ f → natDigsRevF f n ≠ [] := by
  intro f n hn hf
  cases f with
  | zero => omega
  | succ f =>
    cases n with
    | zero => omega
    | succ n => simp [natDigsRevF]

theorem natToChars_ne_nil (n : Nat) : natToChars n ≠ [] := by
  rw [natToChars]
  split
  · simp
  · rename_i h
    exact fun he => natDigsRevF_ne_nil n n h le_rfl (by simpa using he)

/-- Folding decimal digits back onto an accumulator. -/
def digFold (a : Nat) (c : Char) : Nat := a * 10 + digVal c

theorem parseDigs_append (ds : List Char) (hds : ∀ c ∈ ds, isDig c = true) :
    ∀ acc rest, digStart rest = false →
      parseDigs acc (ds ++ rest) = (ds.foldl digFold acc, rest) := by
  induction ds with
  | nil =>
    intro acc rest hrest
    simp only [List.nil_append, List.foldl_nil]
    cases rest with
    | nil => rfl
    | cons c r =>
      simp only [digStart] at hrest
      simp [parseDigs, hrest]
  | cons c ds ih =>
    intro acc rest hrest
    have hc : isDig c = true := hds c (List.mem_cons_self c ds)
    simp only [List.cons_append, parseDigs, hc, if_true, List.foldl_cons]
    exact ih (fun d hd => hds d (List.mem_cons_of_mem c hd)) _ rest hrest

theorem natDigsRevF_val : ∀ f n, n ≤ f → ((natDigsRevF f n).reverse.foldl digFold 0) = n := by
  intro f
  induction f with
  | zero =>
    intro n hf
    have : n = 0 := by omega
    subst this; rfl
  | succ f ih =>
    intro n hf
    cases n with
    | zero => rfl
    | succ n =>
      show (List.reverse (digChar ((n + 1) % 10) :: natDigsRevF f ((n + 1) / 10))).foldl
          digFold 0 = n + 1
      rw [List.reverse_cons, List.foldl_append]
      rw [ih ((n + 1) / 10) (by omega)]
      simp only [List.foldl_cons, List.foldl_nil, digFold]
      rw [digVal_digChar _ (Nat.mod_lt _ (by norm_num))]
      omega

theorem natToChars_val (n : Nat) : (natToChars n).foldl digFold 0 = n := by
  rw [natToChars]
  split
  · rename_i h; subst h; decide
  · exact natDigsRevF_val n n le_rfl

/-!
## Helper lemmas: string literals
-/

theorem parseStr_quote (r : List Char) : parseStr ('"' :: r) = some ([], r) := by
  rw [parseStr.eq_def]; simp

theorem parseStr_esc (e d : Char) (h : unescChar e = some d) (r : List Char) :
    parseStr ('\\' :: e :: r) =
      match parseStr r with
      | none => none
      | some p => some (d :: p.1, p.2) := by
  rw [parseStr.eq_def]; simp [h]

theorem parseStr_plain (c : Char) (h1 : c ≠ '"') (h2 : c ≠ '\\') (r : List Char) :
    parseStr (c :: r) =
      match parseStr r with
      | none => none
      | some p => some (c :: p.1, p.2) := by
  rw [parseStr.eq_def]; simp [h1, h2]

theorem parseStr_escape (s : List Char) : ∀ rest,
    parseStr (escapeStr s ++ '"' :: rest) = some (s, rest) := by
  induction s with
  | nil => intro rest; simp [escapeStr, parseStr_quote]
  | cons c cs ih =>
    intro rest
    by_cases h1 : c = '"'
    · subst h1
      have he : escapeStr ('"' :: cs) = '\\' :: '"' :: escapeStr cs := by
        simp [escapeStr, escChar]
      rw [he, List.cons_append, List.cons_append,
        parseStr_esc '"' '"' (by decide), ih rest]
    · by_cases h2 : c = '\\'
      · subst h2
        have he : escapeStr ('\\' :: cs) = '\\' :: '\\' :: escapeStr cs := by
          simp [escapeStr, escChar]
        rw [he, List.cons_append, List.cons_append,
          parseStr_esc '\\' '\\' (by decide), ih rest]
      · by_cases h3 : c = '\n'
        · subst h3
          have he : escapeStr ('\n' :: cs) = '\\' :: 'n' :: escapeStr cs := by
            simp [escapeStr, escChar]
          rw [he, List.cons_append, List.cons_append,
            parseStr_esc 'n' '\n' (by decide), ih rest]
        · by_cases h4 : c = '\t'
          · subst h4
            have he : escapeStr ('\t' :: cs) = '\\' :: 't' :: escapeStr cs := by
              simp [escapeStr, escChar]
            rw [he, List.cons_append, List.cons_append,
              parseStr_esc 't' '\t' (by decide), ih rest]
          · by_cases h5 : c = '\r'
            · subst h5
              have he : escapeStr ('\r' :: cs) = '\\' :: 'r' :: escapeStr cs := by
                simp [escapeStr, escChar]
              rw [he, List.cons_append, List.cons_append,
                parseStr_esc 'r' '\r' (by decide), ih rest]
            · by_cases h6 : c = Char.ofNat 8
              · subst h6
                have he : escapeStr (Char.ofNat 8 :: cs) = '\\' :: 'b' :: escapeStr cs := by
                  simp [escapeStr, escChar]
                rw [he, List.cons_append, List.cons_append,
                  parseStr_esc 'b' (Char.ofNat 8) (by decide), ih rest]
              · by_cases h7 : c = Char.ofNat 12
                · subst h7
                  have he : escapeStr (Char.ofNat 12 :: cs) = '\\' :: 'f' :: escapeStr cs := by
                    simp [escapeStr, escChar]
                  rw [he, List.cons_append, List.cons_append,
                    parseStr_esc 'f' (Char.ofNat 12) (by decide), ih rest]
                · have he : escapeStr (c :: cs) = c :: escapeStr cs := by
                    simp [escapeStr, escChar, h1, h2, h3, h4, h5, h6, h7]
                  rw [he, List.cons_append, parseStr_plain c h1 h2, ih rest]

/-!
## Helper lemmas: unfolding the value parser
-/

theorem isDig_not_special (c : Char) (hc : isDig c = true) :
    c ≠ 'n' ∧ c ≠ 't' ∧ c ≠ 'f' ∧ c ≠ '"' ∧ c ≠ '[' ∧ c ≠ '{' ∧ c ≠ '-' := by
  refine ⟨?_, ?_, ?_, ?_, ?_, ?_, ?_⟩ <;>
    (intro h; subst h; exact absurd hc (by decide))

theorem parseVal_null (f : Nat) (r : List Char) :
    parseVal (f + 1) ('n' :: 'u' :: 'l' :: 'l' :: r) = some (.jnull, r) := by
  simp [parseVal]

theorem parseVal_true (f : Nat) (r : List Char) :
    parseVal (f + 1) ('t' :: 'r' :: 'u' :: 'e' :: r) = some (.jbool true, r) := by
  simp [parseVal]

theorem parseVal_falseLit (f : Nat) (r : List Char) :
    parseVal (f + 1) ('f' :: 'a' :: 'l' :: 's' :: 'e' :: r) =
      some (.jbool false, r) := by
  simp [parseVal]

theorem parseVal_quoteStart (f : Nat) (r : List Char) :
    parseVal (f + 1) ('"' :: r) =
      match parseStr r with
      | none => none
      | some p => some (.jstr p.1, p.2) := by
  simp [parseVal]

theorem parseVal_arrNil (f : Nat) (r : List Char) :
    parseVal (f + 1) ('[' :: ']' :: r) = some (.jarr [], r) := by
  simp [parseVal]

theorem parseVal_arrCons (f : Nat) (c0 : Char) (t0 : List Char) (h : c0 ≠ ']') :
    parseVal (f + 1) ('[' :: c0 :: t0) =
      match parseVal f (c0 :: t0) with
      | none => none
      | some p =>
        match parseArrTail f p.2 with
        | none => none
        | some q => some (.jarr (p.1 :: q.1), q.2) := by
  simp [parseVal, h]

theorem parseVal_objNil (f : Nat) (r : List Char) :
    parseVal (f + 1) ('{' :: '}' :: r) = some (.jobj [], r) := by
  simp [parseVal]

theorem parseVal_objCons (f : Nat) (r : List Char) :
    parseVal (f + 1) ('{' :: '"' :: r) =
      match parseStr r with
      | none => none
      | some pk =>
        match pk.2 with
        | ':' :: ' ' :: r2 =>
          match parseVal f r2 with
          | none => none
          | some pv =>
            match parseObjTail f pv.2 with
            | none => none
            | some q => some (.jobj ((pk.1, pv.1) :: q.1), q.2)
        | _ => none := by
  simp [parseVal]

theorem parseVal_neg (f : Nat) (d : Char) (r : List Char) (hd : isDig d = true) :
    parseVal (f + 1) ('-' :: d :: r) =
      some (.jint (-((parseDigs (digVal d) r).1 : Int)),
        (parseDigs (digVal d) r).2) := by
  simp [parseVal, hd]

theorem parseVal_dig (f : Nat) (c : Char) (r : List Char) (hc : isDig c = true) :
    parseVal (f + 1) (c :: r) =
      some (.jint (((parseDigs (digVal c) r).1 : Nat) : Int),
        (parseDigs (digVal c) r).2) := by
  obtain ⟨n1, n2, n3, n4, n5, n6, n7⟩ := isDig_not_special c hc
  simp [parseVal, n1, n2, n3, n4, n5, n6, n7, hc]

theorem parseArrTail_close (f : Nat) (r : List Char) :
    parseArrTail (f + 1) (']' :: r) = some ([], r) := by
  simp [parseArrTail]

theorem parseArrTail_sep (f : Nat) (r : List Char) :
    parseArrTail (f + 1) (',' :: ' ' :: r) =
      match parseVal f r with
      | none => none
      | some p =>
        match parseArrTail f p.2 with
        | none => none
        | some q => some (p.1 :: q.1, q.2) := by
  simp [parseArrTail]

theorem parseObjTail_close (f : Nat) (r : List Char) :
    parseObjTail (f + 1) ('}' :: r) = some ([], r) := by
  simp [parseObjTail]

theorem parseObjTail_sep (f : Nat) (r : List Char) :
    parseObjTail (f + 1) (',' :: ' ' :: '"' :: r) =
      match parseStr r with
      | none => none
      | some pk =>
        match pk.2 with
        | ':' :: ' ' :: r2 =>
          match parseVal f r2 with
          | none => none
          | some pv =>
            match parseObjTail f pv.2 with
            | none => none
            | some q => some ((pk.1, pv.1) :: q.1, q.2)
        | _ => none := by
  simp [parseObjTail]

/-!
## Helper lemmas: shape of the serializer output
-/

theorem jsize_pos : ∀ v : Json, 1 ≤ jsize v := by
  intro v
  cases v <;> simp [jsize]

theorem dumps_cons (v : Json) : ∃ c t, dumps v = c :: t ∧ c ≠ ']' := by
  cases v with
  | jnull => exact ⟨'n', _, rfl, by decide⟩
  | jbool b =>
    cases b with
    | false => exact ⟨'f', _, rfl, by decide⟩
    | true => exact ⟨'t', _, rfl, by decide⟩
  | jint i =>
    have hi : dumps (.jint i) = intToChars i := rfl
    rw [hi, intToChars]
    split
    · exact ⟨'-', _, rfl, by decide⟩
    · obtain ⟨c, t, h⟩ := List.exists_cons_of_ne_nil (natToChars_ne_nil i.toNat)
      have hd : isDig c = true := natToChars_digits _ c (by rw [h]; exact List.mem_cons_self c t)
      exact ⟨c, t, h, fun he => by subst he; exact absurd hd (by decide)⟩
  | jstr s => exact ⟨'"', _, rfl, by decide⟩
  | jarr xs =>
    cases xs with
    | nil => exact ⟨'[', _, rfl, by decide⟩
    | cons x xs => exact ⟨'[', _, rfl, by decide⟩
  | jobj kvs =>
    cases kvs with
    | nil => exact ⟨'{', _, rfl, by decide⟩
    | cons kv kvs => exact ⟨'{', _, rfl, by decide⟩

theorem digStart_arrTail (xs : List Json) (rest : List Char) :
    digStart (dumpsArrTail xs ++ ']' :: rest) = false := by
  cases xs <;> simp [dumpsArrTail, digStart, isDig]

theorem digStart_objTail (kvs : List (List Char × Json)) (rest : List Char) :
    digStart (dumpsObjTail kvs ++ '}' :: rest) = false := by
  cases kvs <;> simp [dumpsObjTail, digStart, isDig]

/-!
## Helper lemmas: number literals round-trip
-/

theorem parseDigs_natToChars (n : Nat) (c : Char) (t rest : List Char)
    (hct : natToChars n = c :: t) (hrest : digStart rest = false) :
    parseDigs (digVal c) (t ++ rest) = (n, rest) := by
  have hall : ∀ d ∈ natToChars n, isDig d = true := natToChars_digits n
  have ht : ∀ d ∈ t, isDig d = true := fun d hd =>
    hall d (by rw [hct]; exact List.mem_cons_of_mem _ hd)
  rw [parseDigs_append t ht (digVal c) rest hrest]
  have h0 : (natToChars n).foldl digFold 0 = n := natToChars_val n
  rw [hct, List.foldl_cons] at h0
  have hdf : digFold 0 c = digVal c := by simp [digFold]
  rw [hdf] at h0
  rw [h0]

theorem parseVal_nat (f : Nat) (n : Nat) (rest : List Char)
    (hrest : digStart rest = false) :
    parseVal (f + 1) (natToChars n ++ rest) = some (.jint (n : Int), rest) := by
  obtain ⟨c, t, hct⟩ := List.exists_cons_of_ne_nil (natToChars_ne_nil n)
  have hc : isDig c = true :=
    natToChars_digits n c (by rw [hct]; exact List.mem_cons_self _ _)
  rw [hct, List.cons_append, parseVal_dig f c (t ++ rest) hc,
    parseDigs_natToChars n c t rest hct hrest]

theorem parseVal_int (f : Nat) (i : Int) (rest : List Char)
    (hrest : digStart rest = false) :
    parseVal (f + 1) (intToChars i ++ rest) = some (.jint i, rest) := by
  rw [intToChars]
  split
  · rename_i hi
    obtain ⟨c, t, hct⟩ := List.exists_cons_of_ne_nil (natToChars_ne_nil i.natAbs)
    have hc : isDig c = true :=
      natToChars_digits _ c (by rw [hct]; exact List.mem_cons_self _ _)
    rw [List.cons_append, hct, List.cons_append,
      parseVal_neg f c (t ++ rest) hc,
      parseDigs_natToChars i.natAbs c t rest hct hrest]
    have : -((i.natAbs : Nat) : Int) = i := by omega
    rw [this]
  · rename_i hi
    rw [parseVal_nat f i.toNat rest hrest]
    have : ((i.toNat : Nat) : Int) = i := by omega
    rw [this]

/-!
## The round-trip theorem: the parser inverts the serializer
-/

theorem parse_dumps_joint : ∀ f : Nat,
    (∀ v : Json, ∀ rest : List Char, jsize v ≤ f → digStart rest = false →
      parseVal f (dumps v ++ rest) = some (v, rest)) ∧
    (∀ xs : List Json, ∀ rest : List Char, asize xs < f →
      parseArrTail f (dumpsArrTail xs ++ ']' :: rest) = some (xs, rest)) ∧
    (∀ kvs : List (List Char × Json), ∀ rest : List Char, osize kvs < f →
      parseObjTail f (dumpsObjTail kvs ++ '}' :: rest) = some (kvs, rest)) := by
  intro f
  induction f with
  | zero =>
    refine ⟨fun v rest hv _ => absurd hv ?_, fun xs rest hx => absurd hx (by omega),
      fun kvs rest hk => absurd hk (by omega)⟩
    have := jsize_pos v
    omega
  | succ f ih =>
    obtain ⟨ihV, ihA, ihO⟩ := ih
    refine ⟨?_, ?_, ?_⟩
    · intro v rest hv hrest
      cases v with
      | jnull =>
        simp only [dumps, List.cons_append, List.nil_append]
        exact parseVal_null f rest
      | jbool b =>
        cases b with
        | false =>
          simp only [dumps, List.cons_append, List.nil_append]
          exact parseVal_falseLit f rest
        | true =>
          simp only [dumps, List.cons_append, List.nil_append]
          exact parseVal_true f rest
      | jint i =>
        simp only [dumps]
        exact parseVal_int f i rest hrest
      | jstr s =>
        simp only [dumps, List.cons_append, List.append_assoc, List.singleton_append,
          List.nil_append]
        rw [parseVal_quoteStart f _]
        simp [parseStr_escape s rest]
      | jarr xs =>
        cases xs with
        | nil =>
          simp only [dumps, List.cons_append, List.nil_append]
          exact parseVal_arrNil f rest
        | cons x xs =>
          simp only [jsize, asize] at hv
          have hVx := ihV x (dumpsArrTail xs ++ ']' :: rest) (by omega)
            (digStart_arrTail xs rest)
          have hAxs := ihA xs rest (by omega)
          simp only [dumps, List.cons_append, List.append_assoc, List.singleton_append,
            List.nil_append]
          obtain ⟨c0, t0, hx, hc0⟩ := dumps_cons x
          rw [hx] at hVx ⊢
          rw [List.cons_append] at hVx ⊢
          rw [parseVal_arrCons f c0 _ hc0]
          simp [hVx, hAxs]
      | jobj kvs =>
        cases kvs with
        | nil =>
          simp only [dumps, List.cons_append, List.nil_append]
          exact parseVal_objNil f rest
        | cons kv kvs =>
          obtain ⟨k, v⟩ := kv
          simp only [jsize, osize] at hv
          have hVv := ihV v (dumpsObjTail kvs ++ '}' :: rest) (by omega)
            (digStart_objTail kvs rest)
          have hOkvs := ihO kvs rest (by omega)
          simp only [dumps, dumpsMember, List.cons_append, List.append_assoc,
            List.singleton_append, List.nil_append]
          rw [parseVal_objCons f _]
          simp [parseStr_escape k (':' :: ' ' :: (dumps v ++ (dumpsObjTail kvs ++ '}' :: rest))),
            hVv, hOkvs]
    · intro xs rest hxs
      cases xs with
      | nil =>
        simp only [dumpsArrTail, List.nil_append]
        exact parseArrTail_close f rest
      | cons x xs =>
        simp only [asize] at hxs
        have hVx := ihV x (dumpsArrTail xs ++ ']' :: rest) (by omega)
          (digStart_arrTail xs rest)
        have hAxs := ihA xs rest (by omega)
        simp only [dumpsArrTail, List.cons_append, List.append_assoc, List.nil_append]
        rw [parseArrTail_sep f _]
        simp [hVx, hAxs]
    · intro kvs rest hkvs
      cases kvs with
      | nil =>
        simp only [dumpsObjTail, List.nil_append]
        exact parseObjTail_close f rest
      | cons kv kvs =>
        obtain ⟨k, v⟩ := kv
        simp only [osize] at hkvs
        have hVv := ihV v (dumpsObjTail kvs ++ '}' :: rest) (by omega)
          (digStart_objTail kvs rest)
        have hOkvs := ihO kvs rest (by omega)
        simp only [dumpsObjTail, dumpsMember, List.cons_append, List.append_assoc,
          List.singleton_append, List.nil_append]
        rw [parseObjTail_sep f _]
        simp [parseStr_escape k (':' :: ' ' :: (dumps v ++ (dumpsObjTail kvs ++ '}' :: rest))),
          hVv, hOkvs]

theorem dumps_len_joint : ∀ n : Nat,
    (∀ v : Json, jsize v ≤ n → jsize v ≤ (dumps v).length) ∧
    (∀ xs : List Json, asize xs ≤ n → asize xs ≤ (dumpsArrTail xs).length) ∧
    (∀ kvs : List (List Char × Json), osize kvs ≤ n →
      osize kvs ≤ (dumpsObjTail kvs).length) := by
  intro n
  induction n with
  | zero =>
    refine ⟨fun v hv => absurd hv ?_, ?_, ?_⟩
    · have := jsize_pos v; omega
    · intro xs hxs
      cases xs with
      | nil => simp [asize, dumpsArrTail]
      | cons x xs => simp [asize] at hxs
    · intro kvs hkvs
      cases kvs with
      | nil => simp [osize, dumpsObjTail]
      | cons kv kvs => simp [osize] at hkvs
  | succ n ih =>
    obtain ⟨ihV, ihA, ihO⟩ := ih
    refine ⟨?_, ?_, ?_⟩
    · intro v hv
      cases v with
      | jnull => simp [jsize, dumps]
      | jbool b => cases b <;> simp [jsize, dumps]
      | jint i =>
        have : dumps (.jint i) ≠ [] := by
          obtain ⟨c, t, h, _⟩ := dumps_cons (.jint i)
          simp [h]
        have := List.length_pos.mpr this
        simp only [jsize]
        omega
      | jstr s => simp [jsize, dumps]
      | jarr xs =>
        cases xs with
        | nil => simp [jsize, asize, dumps]
        | cons x xs =>
          simp only [jsize, asize] at hv ⊢
          have h1 := ihV x (by omega)
          have h2 := ihA xs (by omega)
          simp only [dumps, List.length_cons, List.length_append, List.length_singleton]
          omega
      | jobj kvs =>
        cases kvs with
        | nil => simp [jsize, osize, dumps]
        | cons kv kvs =>
          obtain ⟨k, v⟩ := kv
          simp only [jsize, osize] at hv ⊢
          have h1 := ihV v (by omega)
          have h2 := ihO kvs (by omega)
          simp only [dumps, dumpsMember, List.length_cons, List.length_append,
            List.length_singleton]
          omega
    · intro xs hxs
      cases xs with
      | nil => simp [asize, dumpsArrTail]
      | cons x xs =>
        simp only [asize] at hxs ⊢
        have h1 := ihV x (by omega)
        have h2 := ihA xs (by omega)
        simp only [dumpsArrTail, List.length_cons, List.length_append]
        omega
    · intro kvs hkvs
      cases kvs with
      | nil => simp [osize, dumpsObjTail]
      | cons kv kvs =>
        obtain ⟨k, v⟩ := kv
        simp only [osize] at hkvs ⊢
        have h1 := ihV v (by omega)
        have h2 := ihO kvs (by omega)
        simp only [dumpsObjTail, dumpsMember, List.length_cons, List.length_append,
          List.length_singleton]
        omega

theorem jsize_le_dumps (v : Json) : jsize v ≤ (dumps v).length :=
  (dumps_len_joint (jsize v)).1 v le_rfl

/-- The serializer and the parser are mutually inverse: decoding a
broadcast frame recovers exactly the signal that was encoded. -/
theorem loads_dumps (v : Json) : loads (dumps v) = some v := by
  have h := (parse_dumps_joint ((dumps v).length + 1)).1 v []
    (by have := jsize_le_dumps v; omega) rfl
  rw [List.append_nil] at h
  simp [loads, h]

/-!
## Helper lemmas: the in-flight broadcast trace model
-/

theorem countSends_append (a b : List Evt) :
    countSends (a ++ b) = countSends a + countSends b := by
  induction a with
  | nil => simp [countSends]
  | cons e a ih =>
    cases e <;> simp only [countSends, List.cons_append, List.append_eq, ih] <;> omega

theorem countSends_replicate (n : Nat) :
    countSends (List.replicate n .sendStep) = n := by
  induction n with
  | zero => simp [countSends]
  | succ n ih => simp [List.replicate_succ, countSends, ih]

theorem envOps_append (a b : List Evt) :
    envOps (a ++ b) = envOps a ++ envOps b := by
  induction a with
  | nil => simp [envOps]
  | cons e a ih => cases e <;> simp [envOps, ih]

theorem envOps_replicate (n : Nat) :
    envOps (List.replicate n .sendStep) = [] := by
  induction n with
  | zero => simp [envOps]
  | succ n ih => simp [List.replicate_succ, envOps, ih]

theorem runEvts_spec (send : Nat → Except SendError Unit) (msg : List Char) :
    ∀ (evts : List Evt) (pending : List Nat) (st : ExecState),
      (runEvts send msg pending evts st).delivered =
        st.delivered ++ sendFrames send msg (pending.take (countSends evts)) ∧
      (runEvts send msg pending evts st).registry =
        applyOps st.registry (envOps evts) := by
  intro evts
  induction evts with
  | nil =>
    intro pending st
    simp [runEvts, countSends, envOps, applyOps, sendFrames]
  | cons e evts ih =>
    intro pending st
    cases e with
    | sendStep =>
      cases pending with
      | nil =>
        rcases ih [] st with ⟨h1, h2⟩
        constructor
        · rw [show runEvts send msg [] (.sendStep :: evts) st =
              runEvts send msg [] evts st by simp [runEvts]]
          rw [h1]
          simp [sendFrames]
        · rw [show runEvts send msg [] (.sendStep :: evts) st =
              runEvts send msg [] evts st by simp [runEvts]]
          rw [h2]
          simp [envOps]
      | cons c rest =>
        cases hsend : send c with
        | ok u =>
          rcases ih rest ⟨st.registry, st.delivered ++ [(c, msg)]⟩ with ⟨h1, h2⟩
          have hrun : runEvts send msg (c :: rest) (.sendStep :: evts) st =
              runEvts send msg rest evts ⟨st.registry, st.delivered ++ [(c, msg)]⟩ := by
            simp [runEvts, hsend]
          constructor
          · rw [hrun, h1]
            simp [countSends, List.take_succ_cons, sendFrames, List.filterMap_cons, hsend]
          · rw [hrun, h2]
            simp [envOps]
        | error err =>
          rcases ih rest st with ⟨h1, h2⟩
          have hrun : runEvts send msg (c :: rest) (.sendStep :: evts) st =
              runEvts send msg rest evts st := by
            simp [runEvts, hsend]
          constructor
          · rw [hrun, h1]
            simp [countSends, List.take_succ_cons, sendFrames, List.filterMap_cons, hsend]
          · rw [hrun, h2]
            simp [envOps]
    | env op =>
      rcases ih pending ⟨applyOp st.registry op, st.delivered⟩ with ⟨h1, h2⟩
      have hrun : runEvts send msg pending (.env op :: evts) st =
          runEvts send msg pending evts ⟨applyOp st.registry op, st.delivered⟩ := by
        simp [runEvts]
      constructor
      · rw [hrun, h1]
        simp [countSends]
      · rw [hrun, h2]
        simp [envOps, applyOps]

theorem runBroadcast_delivered (send : Nat → Except SendError Unit)
    (sig : Json) (st0 : List Nat) (evts : List Evt) :
    (runBroadcast send sig st0 evts).delivered = sendFrames send (dumps sig) st0 := by
  unfold runBroadcast
  rcases runEvts_spec send (dumps sig)
    (evts ++ List.replicate st0.length .sendStep) st0 ⟨st0, []⟩ with ⟨h1, _⟩
  rw [h1]
  have hcount : st0.length ≤ countSends (evts ++ List.replicate st0.length .sendStep) := by
    rw [countSends_append, countSends_replicate]
    omega
  rw [List.take_of_length_le hcount]
  simp

theorem runBroadcast_registry (send : Nat → Except SendError Unit)
    (sig : Json) (st0 : List Nat) (evts : List Evt) :
    (runBroadcast send sig st0 evts).registry = applyOps st0 (envOps evts) := by
  unfold runBroadcast
  rcases runEvts_spec send (dumps sig)
    (evts ++ List.replicate st0.length .sendStep) st0 ⟨st0, []⟩ with ⟨_, h2⟩
  rw [h2, envOps_append, envOps_replicate, List.append_nil]

theorem broadcast_signal_frames (send : Nat → Except SendError Unit)
    (st0 : List Nat) (sig : Json) :
    (broadcast_signal send st0 sig).frames = sendFrames send (dumps sig) st0 := by
  by_cases h : st0 = []
  · subst h; simp [broadcast_signal, sendFrames]
  · unfold broadcast_signal
    rw [if_neg h]
    dsimp only
    split <;> rfl

/-!
## Helper lemmas: broadcast with a uniform send outcome
-/

theorem sendFrames_all_ok (send : Nat → Except SendError Unit) (msg : List Char)
    (clients : List Nat) (hok : ∀ c ∈ clients, send c = .ok ()) :
    sendFrames send msg clients = clients.map (fun c => (c, msg)) := by
  induction clients with
  | nil => rfl
  | cons c cs ih =>
    have hc : send c = .ok () := hok c (List.mem_cons_self _ _)
    simp only [sendFrames, List.filterMap_cons, hc, List.map_cons]
    exact congrArg _ (ih fun d hd => hok d (List.mem_cons_of_mem _ hd))

theorem broadcast_outcome_all_ok (send : Nat → Except SendError Unit)
    (clients : List Nat) (sig : Json) (hok : ∀ c ∈ clients, send c = .ok ()) :
    (broadcast_signal send clients sig).outcome =
      if clients = [] then .noop else .ok clients.length := by
  by_cases h : clients = []
  · subst h; rfl
  · unfold broadcast_signal
    rw [if_neg h, if_neg h]
    dsimp only
    have hfe : (clients.findSome? fun c =>
        match send c with
        | .error e => some e
        | .ok _ => none) = none := by
      rw [List.findSome?_eq_none_iff]
      intro c hc
      rw [hok c hc]
    rw [hfe]

/-!
## Concrete inputs used by witnesses and counterexamples
-/

/-- The canned test signal of `run_server.py` (without the float-valued
`price` field, which lies outside the integer fragment of the
embedding). -/
def sigTest : Json := .jobj [
  ("action".toList, .jstr ("BUY".toList)),
  ("symbol".toList, .jstr ("000001.SZ".toList)),
  ("volume".toList, .jint 100),
  ("strategy_id".toList, .jstr ("test_strategy_001".toList))]

/-- A transport on which every send succeeds. -/
def sendOk : Nat → Except SendError Unit := fun _ => .ok ()

/-- A transport on which the send to connection 1 fails because the
client closed its connection, and every other send succeeds. -/
def sendFail1 : Nat → Except SendError Unit :=
  fun c => if c = 1 then .error .connectionClosed else .ok ()

/-!
## The claims
-/

/-- C1 (counterexample): with two registered connections of which the
first send fails, `broadcast_signal` does not report an aggregate
partial-success outcome — the exception propagates out of the `gather`
and the whole call raises — and the failing connection 1 is not
unregistered: the registry still holds both connections afterwards.
The second client nevertheless received its frame, because its send
task had already been scheduled independently. -/
theorem broadcast_send_failure_propagates_cex :
    (broadcast_signal sendFail1 [1, 2] sigTest).outcome =
      .raised .connectionClosed ∧
    (broadcast_signal sendFail1 [1, 2] sigTest).frames = [(2, dumps sigTest)] ∧
    (runBroadcast sendFail1 sigTest [1, 2] []).registry = [1, 2] :=
  ⟨rfl, rfl, rfl⟩

/-- C1 (amended): when the send to some registered connection fails, the
other send tasks still run — every connection keeps its send attempt and
every successful send delivers its frame — but the failure is not caught
by `broadcast_signal`: the call terminates by re-raising a send error
rather than returning an aggregate outcome, and no connection is
unregistered by the broadcast (the registry is untouched; the failed
client is removed only later, by its own `handler` cleanup). -/
theorem broadcast_send_failure_spec (send : Nat → Except SendError Unit)
    (clients : List Nat) (sig : Json) (c : Nat) (e : SendError)
    (hc : c ∈ clients) (he : send c = .error e) :
    (∃ e', (broadcast_signal send clients sig).outcome = .raised e') ∧
    (broadcast_signal send clients sig).attempts = clients ∧
    (∀ c', c' ∈ clients → send c' = .ok () →
      (c', dumps sig) ∈ (broadcast_signal send clients sig).frames) ∧
    (runBroadcast send sig clients []).registry = clients := by
  have hne : clients ≠ [] := List.ne_nil_of_mem hc
  refine ⟨?_, ?_, ?_, ?_⟩
  · unfold broadcast_signal
    rw [if_neg hne]
    dsimp only
    cases hfe : (clients.findSome? fun c =>
        match send c with
        | .error e => some e
        | .ok _ => none) with
    | some e' => exact ⟨e', rfl⟩
    | none =>
      rw [List.findSome?_eq_none_iff] at hfe
      have := hfe c hc
      rw [he] at this
      simp at this
  · unfold broadcast_signal
    rw [if_neg hne]
    dsimp only
    split <;> rfl
  · intro c' hc' hok'
    rw [broadcast_signal_frames]
    unfold sendFrames
    rw [List.mem_filterMap]
    exact ⟨c', hc', by rw [hok']⟩
  · rw [runBroadcast_registry]
    rfl

/-- C1 (witness for the amended theorem), at the concrete failing
transport `sendFail1` over registry `[1, 2]`. -/
theorem broadcast_send_failure_spec_witness :
    (∃ e', (broadcast_signal sendFail1 [1, 2] sigTest).outcome = .raised e') ∧
    (broadcast_signal sendFail1 [1, 2] sigTest).attempts = [1, 2] ∧
    (∀ c', c' ∈ [1, 2] → sendFail1 c' = .ok () →
      (c', dumps sigTest) ∈ (broadcast_signal sendFail1 [1, 2] sigTest).frames) ∧
    (runBroadcast sendFail1 sigTest [1, 2] []).registry = [1, 2] :=
  broadcast_send_failure_spec sendFail1 [1, 2] sigTest 1 .connectionClosed
    (by decide) rfl

/-- C2: for every signal in the embeddable fragment and every
duplicate-free registry on which all sends succeed, the broadcast
delivers exactly one frame per connection, all frames carry the same
payload `dumps sig`, each connection receives exactly one frame, the
payload decodes back to exactly the input signal, and the call does not
raise. -/
theorem broadcast_all_success_delivery (send : Nat → Except SendError Unit)
    (clients : List Nat) (sig : Json) (hwf : wfJson sig = true)
    (hnd : clients.Nodup) (hok : ∀ c ∈ clients, send c = .ok ()) :
    (broadcast_signal send clients sig).frames =
      clients.map (fun c => (c, dumps sig)) ∧
    (broadcast_signal send clients sig).frames.length = clients.length ∧
    (∀ c ∈ clients,
      ((broadcast_signal send clients sig).frames.map Prod.fst).count c = 1) ∧
    loads (dumps sig) = some sig ∧
    (∀ e, (broadcast_signal send clients sig).outcome ≠ .raised e) := by
  have hframes : (broadcast_signal send clients sig).frames =
      clients.map (fun c => (c, dumps sig)) := by
    rw [broadcast_signal_frames]
    exact sendFrames_all_ok send (dumps sig) clients hok
  refine ⟨hframes, ?_, ?_, loads_dumps sig, ?_⟩
  · rw [hframes, List.length_map]
  · intro c hc
    have : ((broadcast_signal send clients sig).frames.map Prod.fst) = clients := by
      rw [hframes, List.map_map]
      show clients.map (fun c => c) = clients
      exact List.map_id' clients
    rw [this]
    exact List.count_eq_one_of_mem hnd hc
  · intro e
    rw [broadcast_outcome_all_ok send clients sig hok]
    split <;> simp

/-- C2 (witness), at the canned test signal over registry `[1, 2, 3]`
with an all-success transport. -/
theorem broadcast_all_success_delivery_witness :
    (broadcast_signal sendOk [1, 2, 3] sigTest).frames =
      [1, 2, 3].map (fun c => (c, dumps sigTest)) ∧
    (broadcast_signal sendOk [1, 2, 3] sigTest).frames.length = 3 ∧
    (∀ c ∈ [1, 2, 3],
      ((broadcast_signal sendOk [1, 2, 3] sigTest).frames.map Prod.fst).count c = 1) ∧
    loads (dumps sigTest) = some sigTest ∧
    (∀ e, (broadcast_signal sendOk [1, 2, 3] sigTest).outcome ≠ .raised e) :=
  broadcast_all_success_delivery sendOk [1, 2, 3] sigTest rfl
    (by decide) (fun c _ => rfl)

/-- C3: broadcasting over an empty registry returns immediately with the
no-op outcome — no error is raised, no send task is created, no frame is
delivered. -/
theorem broadcast_empty_registry_noop (send : Nat → Except SendError Unit)
    (sig : Json) :
    broadcast_signal send [] sig =
      ⟨.noop, [], []⟩ :=
  rfl

/-- C4 (counterexample): the registry removal of the source is Python
`set.remove`, which raises `KeyError` when the connection is absent —
it is not a no-op.  Removing an unknown connection from the empty
registry raises, and it also raises when a different connection was
registered first. -/
theorem unregister_absent_raises_cex :
    removeConn [] 0 = .error () ∧
    removeConn (registerConn [] 5) 0 = .error () :=
  ⟨rfl, rfl⟩

/-- C4 (amended): `removeConn` removes the connection when it is
present; when it is absent it raises `KeyError` (leaving the registry
unchanged) instead of being a no-op.  The register-then-clean path the
`handler` actually takes never hits the error, because the connection
was added on entry. -/
theorem unregister_spec (st : List Nat) (c : Nat) :
    (c ∈ st → removeConn st c = .ok (st.erase c)) ∧
    (c ∉ st → removeConn st c = .error ()) ∧
    removeConn (registerConn st c) c ≠ .error () := by
  refine ⟨fun h => by simp [removeConn, h], fun h => by simp [removeConn, h], ?_⟩
  by_cases h : c ∈ st
  · simp [registerConn, removeConn, h]
  · simp [registerConn, removeConn, h]

/-- C4 (witness for the amended theorem). -/
theorem unregister_spec_witness :
    removeConn [7] 7 = .ok [] ∧ removeConn [7] 9 = .error () := by
  constructor
  · have h := (unregister_spec [7] 7).1 (by decide)
    simpa using h
  · exact (unregister_spec [7] 9).2.1 (by decide)

/-- C5: registration is Python `set.add`: when the connection is new the
registry grows by exactly one and contains it; when it is already
present the call silently leaves the registry unchanged, so registering
twice equals registering once. -/
theorem register_spec (st : List Nat) (c : Nat) :
    (c ∉ st → (registerConn st c).length = st.length + 1 ∧ c ∈ registerConn st c) ∧
    (c ∈ st → registerConn st c = st) ∧
    registerConn (registerConn st c) c = registerConn st c := by
  refine ⟨fun h => by simp [registerConn, h], fun h => by simp [registerConn, h], ?_⟩
  by_cases h : c ∈ st
  · simp [registerConn, h]
  · simp [registerConn, h]

/-- C5 (witness). -/
theorem register_spec_witness :
    (registerConn [5] 3).length = 2 ∧ registerConn [3, 5] 3 = [3, 5] :=
  ⟨((register_spec [5] 3).1 (by decide)).1, (register_spec [3, 5] 3).2.1 (by decide)⟩

/-- C6 (counterexample): when the submitted broadcast exceeds the
5-second deadline, `broadcast_signal_sync` raises nothing to its caller
— the caller gets a silent `None` return, with the timeout only
recorded in the log — contradicting the claim that the caller receives
the timeout as a distinct error result. -/
theorem sync_timeout_silent_none_cex :
    (broadcast_signal_sync (ServerEngine.start ServerEngine.init)
      .timedOut).raisedToCaller = none ∧
    (broadcast_signal_sync (ServerEngine.start ServerEngine.init)
      .timedOut).loggedError = some .broadcastTimeout :=
  ⟨rfl, rfl⟩

/-- C6 (amended): on timeout the bridge catches the error, logs it, and
returns `None` to the caller instead of raising; the submitted task is
not cancelled and may run to completion on the loop, and nothing rolls
back sends already issued. -/
theorem sync_timeout_spec (s : EngineState) (h : s.asyncLoopSet = true) :
    broadcast_signal_sync s .timedOut =
      ⟨none, some .broadcastTimeout, true, false⟩ := by
  simp [broadcast_signal_sync, h]

/-- C6 (witness for the amended theorem), on a started engine. -/
theorem sync_timeout_spec_witness :
    broadcast_signal_sync (ServerEngine.start ServerEngine.init) .timedOut =
      ⟨none, some .broadcastTimeout, true, false⟩ :=
  sync_timeout_spec (ServerEngine.start ServerEngine.init) rfl

/-- C7 (counterexample): after `stop()` the loop reference is still set
and the loop still runs, so a bridge call submits the broadcast
normally instead of failing with a loop-unavailable error; and before
`start()` the call surfaces no error to its caller — it only logs and
returns `None`. -/
theorem bridge_unavailable_cex :
    (broadcast_signal_sync (ServerEngine.stop (ServerEngine.start ServerEngine.init))
      .completed).submitted = true ∧
    (broadcast_signal_sync ServerEngine.init .completed).raisedToCaller = none :=
  ⟨rfl, rfl⟩

/-- C7 (amended): while `self.async_loop` is still unset the bridge call
returns immediately — it logs a loop-not-ready error, raises nothing to
the caller, and performs no broadcast; but `stop()` does not make the
loop unavailable: after `stop()` of a started engine the loop reference
remains set, so bridge calls keep broadcasting. -/
theorem bridge_unavailable_spec (s : EngineState) (fate : TaskFate)
    (h : s.asyncLoopSet = false) :
    broadcast_signal_sync s fate = ⟨none, some .loopNotReady, false, false⟩ ∧
    (ServerEngine.stop (ServerEngine.start ServerEngine.init)).asyncLoopSet = true := by
  constructor
  · simp [broadcast_signal_sync, h]
  · rfl

/-- C7 (witness for the amended theorem), on a fresh engine. -/
theorem bridge_unavailable_spec_witness :
    broadcast_signal_sync ServerEngine.init .completed =
      ⟨none, some .loopNotReady, false, false⟩ ∧
    (ServerEngine.stop (ServerEngine.start ServerEngine.init)).asyncLoopSet = true :=
  bridge_unavailable_spec ServerEngine.init .completed rfl

/-- C8 (counterexample): after `start` then `stop`, the event loop is
still running on the still-alive daemon worker thread, no loop task was
cancelled and the thread was not joined — `stop()` is not an explicit,
observable shutdown. -/
theorem stop_not_shutdown_cex :
    (ServerEngine.stop (ServerEngine.start ServerEngine.init)).loopRunning = true ∧
    (ServerEngine.stop (ServerEngine.start ServerEngine.init)).threadJoined = false ∧
    (ServerEngine.stop (ServerEngine.start ServerEngine.init)).tasksCancelled = false ∧
    (ServerEngine.stop (ServerEngine.start ServerEngine.init)).threadDaemon = true :=
  ⟨rfl, rfl, rfl, rfl⟩

/-- C8 (amended): `stop()` on a started engine only clears the `active`
flag (and logs); the loop, its tasks, the loop reference and the daemon
worker thread are all left untouched — shutdown relies on the process
exit reaping the daemon thread. -/
theorem stop_spec (s : EngineState) (h : s.active = true) :
    ServerEngine.stop s = { s with active := false } := by
  simp [ServerEngine.stop, h]

/-- C8 (witness for the amended theorem). -/
theorem stop_spec_witness :
    ServerEngine.stop (ServerEngine.start ServerEngine.init) =
      { ServerEngine.start ServerEngine.init with active := false } :=
  stop_spec (ServerEngine.start ServerEngine.init) rfl

/-- C9: the recipients of a broadcast are frozen at the call: under any
interleaving of handler register/unregister operations with the
in-flight send tasks, the delivered frames are exactly those determined
by the registry content when the broadcast started — equal to the
frames of the undisturbed broadcast and to the frames `broadcast_signal`
computes — because the iteration over the registry and the creation of
all send tasks happen atomically before the first `await`. -/
theorem broadcast_frozen_recipients (send : Nat → Except SendError Unit)
    (sig : Json) (st0 : List Nat) (evts : List Evt) :
    (runBroadcast send sig st0 evts).delivered =
      (runBroadcast send sig st0 []).delivered ∧
    (runBroadcast send sig st0 evts).delivered = sendFrames send (dumps sig) st0 ∧
    (runBroadcast send sig st0 evts).delivered =
      (broadcast_signal send st0 sig).frames := by
  have h1 := runBroadcast_delivered send sig st0 evts
  have h2 := runBroadcast_delivered send sig st0 []
  have h3 := broadcast_signal_frames send st0 sig
  exact ⟨by rw [h1, h2], h1, by rw [h1, h3]⟩

/-- C10: a broadcast never mutates the registry: every change to the
registry during a broadcast comes from interleaved handler operations
(`applyOps st0 (envOps evts)`), and in particular with no concurrent
handler activity the registry after the broadcast equals the registry
at the call — for every transport, including ones on which sends
fail. -/
theorem broadcast_registry_frame (send : Nat → Except SendError Unit)
    (sig : Json) (st0 : List Nat) (evts : List Evt) :
    (runBroadcast send sig st0 evts).registry = applyOps st0 (envOps evts) ∧
    (runBroadcast send sig st0 []).registry = st0 := by
  refine ⟨runBroadcast_registry send sig st0 evts, ?_⟩
  rw [runBroadcast_registry]
  rfl
